import Mathlib

/-!
Verification of the keydotcat backend core: the team/vault/membership/
key-distribution engine (`models` package) and the service configuration
validator (`api` package).

The repository snapshot ships the model-package test suite
(`team_test.go`) and the configuration validator (`conf.go`).  The team
engine itself (`CreateTeam`, `AddOrInviteUserByEmail`, `CreateVault`,
`PromoteUser`, `DemoteUser`, `CheckAdmin`, `GetVaultsForUser`) is not in
the snapshot, so it is modelled here from the specification, constrained
by the behaviour the shipped tests demand.  `Conf.validate` is embedded
directly from `conf.go`.
-/

namespace KeyCat

/-- User / team / vault identifiers.  The Go code uses opaque unique
strings; the model uses naturals drawn from a fresh-id counter. -/
abbrev Id := Nat

/-- Opaque byte blobs (wrapped keys, salts).  The server never inspects
their contents, only their presence. -/
abbrev Blob := List Nat

/-- A registered account from the identity store: unique identifier and
unique email. -/
structure User where
  id : Id
  email : String
deriving DecidableEq, Repr

/-- Modelled from the spec: a vault's content-key envelope — a
salt/nonce plus a mapping from recipient identifier to that recipient's
wrapped copy of the content key (`VaultKeyPair` in the Go code, a public
key blob plus `map[string][]byte`). -/
structure VaultKeyPair where
  publicKey : Blob
  keys : List (Id × Blob)
deriving DecidableEq, Repr

/-- The identifiers that have a wrapped-key entry in the envelope. -/
def VaultKeyPair.recipientIds (vkp : VaultKeyPair) : List Id :=
  vkp.keys.map Prod.fst

/-- Does the envelope carry a wrapped key for `uid`? -/
def VaultKeyPair.hasKeyFor (vkp : VaultKeyPair) (uid : Id) : Bool :=
  vkp.keys.any (fun e => e.1 == uid)

/-- The wrapped key stored for `uid`, if any. -/
def VaultKeyPair.keyFor (vkp : VaultKeyPair) (uid : Id) : Option Blob :=
  (vkp.keys.find? (fun e => e.1 == uid)).map Prod.snd

/-- Exact set equality of two identifier lists (mutual containment),
the "recipient coverage" check shared by vault creation. -/
def idSetEq (a b : List Id) : Bool :=
  a.all (fun x => b.contains x) && b.all (fun x => a.contains x)

/-- Membership roles: the closed variant {Owner, Admin, Member, Invited}
from the spec's membership ledger. -/
inductive Role
  | owner
  | admin
  | member
  | invited
deriving DecidableEq, Repr

/-- Owner and Admin count as administrators. -/
def Role.isAdminRole : Role → Bool
  | .owner => true
  | .admin => true
  | _ => false

/-- A named secret container belonging to exactly one team, holding its
own `VaultKeyPair`. -/
structure Vault where
  id : Id
  team : Id
  name : String
  vkp : VaultKeyPair
deriving DecidableEq, Repr

/-- Modelled from the spec: the Team aggregate — identifier, display
name, the immutable owner, the membership ledger (user id → role),
pending invitations keyed by raw email, and the team's vaults.
`nextVaultId` is the fresh-identifier counter for new vaults. -/
structure Team where
  id : Id
  name : String
  owner : Id
  members : List (Id × Role)
  invites : List String
  vaults : List Vault
  nextVaultId : Nat
deriving DecidableEq, Repr

/-- The error taxonomy of the core (`ErrAlreadyInvited`,
`ErrAlreadyInTeam`, `ErrInvalidKeys`, `ErrUnauthorized`, `ErrNotFound`
in the Go code). -/
inductive ModelError
  | alreadyInvited
  | alreadyInTeam
  | invalidKeys
  | unauthorized
  | notFound
deriving DecidableEq, Repr

/-- The role recorded for `uid` in the membership ledger, if any. -/
def Team.roleOf (t : Team) (uid : Id) : Option Role :=
  (t.members.find? (fun m => m.1 == uid)).map Prod.snd

/-- Is `uid` a member of the team (any role, including pending)? -/
def Team.isMember (t : Team) (uid : Id) : Bool :=
  (t.roleOf uid).isSome

/-- Does `uid` hold Admin/Owner rights in the team? -/
def Team.isAdminId (t : Team) (uid : Id) : Bool :=
  match t.roleOf uid with
  | some r => r.isAdminRole
  | none => false

/-- Modelled from the spec: `CheckAdmin(user)` — pure read of the
membership role, true for Owner or Admin. -/
def Team.checkAdmin (t : Team) (u : User) : Bool :=
  t.isAdminId u.id

/-- The identifiers of all current Admin/Owner members. -/
def Team.adminIds (t : Team) : List Id :=
  (t.members.filter (fun m => m.2.isAdminRole)).map Prod.fst

/-- Modelled from the spec: `GetVaultsForUser(user)` — every vault of
the team whose `VaultKeyPair` contains the user's identifier as a key.
The pair returns the (unchanged) team alongside the result to make the
absence of side effects statable. -/
def Team.getVaultsForUser (t : Team) (u : User) : List Vault × Team :=
  (t.vaults.filter (fun v => v.vkp.hasKeyFor u.id), t)

/-- Modelled from the spec: `CreateVault(name, vkp)` — fails with
`InvalidKeys` unless the recipient set of `vkp` is exactly the current
Admin/Owner identifier set; on success persists a new vault with a fresh
identifier and the given `VaultKeyPair`. -/
def Team.createVault (t : Team) (name : String) (vkp : VaultKeyPair) :
    Except ModelError (Vault × Team) :=
  if idSetEq vkp.recipientIds t.adminIds then
    let v : Vault := { id := t.nextVaultId, team := t.id, name := name, vkp := vkp }
    .ok (v, { t with vaults := t.vaults ++ [v], nextVaultId := t.nextVaultId + 1 })
  else
    .error .invalidKeys

/-- Resolve an email against the identity store. -/
def findUserByEmail (users : List User) (email : String) : Option User :=
  users.find? (fun u => u.email == email)

/-- Modelled from the spec: `AddOrInviteUserByEmail(actor, email)` —
the actor must be Admin/Owner; an email resolving to an existing
non-member adds that user as a full Member (`added = true`); a resolved
existing member (any role) yields `AlreadyInTeam`; an unresolved email
records a pending invitation keyed by the raw email (`added = false`),
and a repeated unresolved email yields `AlreadyInvited`. -/
def Team.addOrInviteUserByEmail (t : Team) (users : List User) (actor : User)
    (email : String) : Except ModelError (Bool × Team) :=
  if !(t.checkAdmin actor) then
    .error .unauthorized
  else
    match findUserByEmail users email with
    | some u =>
      if t.isMember u.id then
        .error .alreadyInTeam
      else
        .ok (true, { t with members := t.members ++ [(u.id, Role.member)] })
    | none =>
      if t.invites.contains email then
        .error .alreadyInvited
      else
        .ok (false, { t with invites := t.invites ++ [email] })

/-- The team state after a successful promotion: every vault the actor
can read gains the target's wrapped key (additively), and the target's
role becomes Admin. -/
def Team.promotedTeam (t : Team) (actorId targetId : Id) (vkp : VaultKeyPair) :
    Team :=
  { t with
    vaults := t.vaults.map (fun v =>
      if v.vkp.hasKeyFor actorId then
        { v with vkp := { v.vkp with
            keys := v.vkp.keys ++ [(targetId, (vkp.keyFor v.id).getD [])] } }
      else v),
    members := t.members.map (fun m =>
      if m.1 == targetId then (m.1, Role.admin) else m) }

/-- Modelled from the spec: `PromoteUser(actor, target, vkp)` — the
actor must be Admin/Owner and the target an existing non-pending
member; `vkp` here maps vault identifiers to the per-vault wrapped key
for the target, and must cover every vault the actor has access to,
else `InvalidKeys`.  On success each such vault's key mapping gains the
target's wrapped key (additively) and the target's role becomes Admin. -/
def Team.promoteUser (t : Team) (actor target : User) (vkp : VaultKeyPair) :
    Except ModelError Team :=
  if !(t.checkAdmin actor) then
    .error .unauthorized
  else
    match t.roleOf target.id with
    | none => .error .notFound
    | some .invited => .error .notFound
    | some _ =>
      let actorVaults := t.vaults.filter (fun v => v.vkp.hasKeyFor actor.id)
      if actorVaults.all (fun v => vkp.hasKeyFor v.id) then
        .ok (t.promotedTeam actor.id target.id vkp)
      else
        .error .invalidKeys

/-- Modelled from the spec: `DemoteUser(actor, target)` — the actor
must be Admin/Owner, else `Unauthorized`; the Owner is immutable (the
spec's single-Owner invariant) so demoting the owner is `Unauthorized`
as well; on success the target's role becomes Member. -/
def Team.demoteUser (t : Team) (actor target : User) : Except ModelError Team :=
  if !(t.checkAdmin actor) then
    .error .unauthorized
  else if t.owner == target.id then
    .error .unauthorized
  else if !(t.isMember target.id) then
    .error .notFound
  else
    .ok { t with members := t.members.map (fun m =>
      if m.1 == target.id then (m.1, Role.member) else m) }

/-- The server-wide state: the identity store, all teams, and the
fresh-identifier counter. -/
structure ServerState where
  users : List User
  teams : List Team
  nextId : Nat
deriving DecidableEq, Repr

/-- A freshly created team: the creator is Owner, the supplied envelope
seeds the team's default vault. -/
def mkTeamWithVault (tid : Id) (name : String) (ownerId : Id)
    (vkp : VaultKeyPair) : Team :=
  { id := tid
    name := name
    owner := ownerId
    members := [(ownerId, Role.owner)]
    invites := []
    vaults := [{ id := 0, team := tid, name := name, vkp := vkp }]
    nextVaultId := 1 }

/-- Modelled from the spec: `CreateTeam(actor, name, vkp)` — always
succeeds for an authenticated user, generating a fresh unique team
identifier regardless of name collisions; registers the actor as Owner
and seeds the team's key envelope with `vkp`. -/
def ServerState.createTeam (st : ServerState) (actor : User) (name : String)
    (vkp : VaultKeyPair) : Team × ServerState :=
  let t := mkTeamWithVault st.nextId name actor.id vkp
  (t, { st with teams := st.teams ++ [t], nextId := st.nextId + 1 })

/-- The teams `u` belongs to. -/
def ServerState.getTeams (st : ServerState) (u : User) : List Team :=
  st.teams.filter (fun t => t.isMember u.id)

/-- Modelled from the spec: account registration, which is external to
the core and absent from the snapshot — it creates the user and, as the
test fixture `getDummyOwnerWithTeam` requires, the user's personal team
seeded with the supplied key envelope. -/
def ServerState.createUser (st : ServerState) (email : String)
    (vkp : VaultKeyPair) : User × ServerState :=
  let u : User := { id := st.nextId, email := email }
  let st1 : ServerState :=
    { st with users := st.users ++ [u], nextId := st.nextId + 1 }
  (u, (st1.createTeam u email vkp).2)

end KeyCat

namespace KeyCatApi

/-- SMTP mail configuration (`ConfMailSMTP` in `conf.go`). -/
structure ConfMailSMTP where
  Server : String
  User : String
  Password : String
deriving DecidableEq, Repr

/-- Sparkpost mail configuration (`ConfMailSparkpost` in `conf.go`). -/
structure ConfMailSparkpost where
  Key : String
  EU : Bool
deriving DecidableEq, Repr

/-- Redis session configuration (`ConfSessionRedis` in `conf.go`). -/
structure ConfSessionRedis where
  Server : String
  DBId : Int
deriving DecidableEq, Repr

/-- CSRF configuration (`ConfCsrf` in `conf.go`). -/
structure ConfCsrf where
  HashKey : String
  BlockKey : String
deriving DecidableEq, Repr

/-- The service configuration (`Conf` in `conf.go`).  Go pointer fields
become `Option`; `nil` is `none`. -/
structure Conf where
  Url : String
  Port : Int
  DB : String
  DBMaxConns : Int
  DBType : String
  OnlyInvited : Bool
  ProxyMode : Bool
  MailSMTP : Option ConfMailSMTP
  MailSparkpost : Option ConfMailSparkpost
  MailFrom : String
  SessionRedis : Option ConfSessionRedis
  Csrf : ConfCsrf
deriving DecidableEq, Repr

/-- Length of `c.MailSMTP.Server` when present (only read under a
`smtp` guard in the source). -/
def Conf.smtpServerLen (c : Conf) : Nat :=
  match c.MailSMTP with
  | some m => m.Server.length
  | none => 0

/-- Length of `c.MailSparkpost.Key` when present (only read under a
`spark` guard in the source). -/
def Conf.sparkKeyLen (c : Conf) : Nat :=
  match c.MailSparkpost with
  | some m => m.Key.length
  | none => 0

/-- Length of `c.SessionRedis.Server` when present. -/
def Conf.redisServerLen (c : Conf) : Nat :=
  match c.SessionRedis with
  | some r => r.Server.length
  | none => 0

/-- The body of `Conf.validate` from `conf.go`, embedded statement by
statement.  The Go method has a value receiver, so the body operates on
a local copy of the configuration; the returned `Conf` is that local
copy after the body ran (it carries the `Url` defaulting at line 50),
and the `Option String` is the returned error.  `tm` stands for the
package-level `TEST_MODE` flag, which is defined outside the snapshot. -/
def Conf.validateBody (tm : Bool) (c : Conf) : Conf × Option String :=
  if c.Port < 1 then
    (c, some "Invalid port defined in the configuration")
  else
    let c := if c.Url.length == 0 then
        { c with Url := "http://localhost:" ++ toString c.Port }
      else c
    if c.DB.length == 0 then
      (c, some "Invalid db configuration")
    else if c.DBType != "postgresql" && c.DBType != "cockroackdb" then
      (c, some ("Invalid db type (" ++ c.DBType ++ ")"))
    else if c.MailFrom.length == 0 then
      (c, some "Invalid mail.from")
    else if c.Csrf.HashKey.length != 32 && c.Csrf.HashKey.length != 64 then
      (c, some "Invalid csrf.hash_key. It has to be 32 or 64 characters long")
    else if c.Csrf.BlockKey.length != 0 && c.Csrf.BlockKey.length != 16 &&
        c.Csrf.BlockKey.length != 24 && c.Csrf.BlockKey.length != 32 then
      (c, some "Invalid csrf.block_key. It has to be 16, 24 or 32 characters long, or 0 to disable encryption")
    else if !tm && ((!c.MailSMTP.isSome && !c.MailSparkpost.isSome) ||
        (c.MailSMTP.isSome && c.MailSparkpost.isSome)) then
      (c, some ("Either configure mail.smtp (" ++ toString c.MailSMTP.isSome ++
        ") or mail.sparkpost (" ++ toString c.MailSparkpost.isSome ++ ")"))
    else if !tm && c.MailSMTP.isSome && c.smtpServerLen == 0 then
      (c, some "Invalid mail.smtp.server")
    else if !tm && c.MailSparkpost.isSome && c.sparkKeyLen == 0 then
      (c, some "Invalid mail.sparkpost.key")
    else if c.SessionRedis.isSome && c.redisServerLen == 0 then
      (c, some "Invalid session.redis.server")
    else
      (c, none)

/-- `Conf.validate` as the caller sees it: the receiver is passed by
value, so only the error result flows back; the local copy (with its
defaulted `Url`) is discarded. -/
def Conf.validate (tm : Bool) (c : Conf) : Option String :=
  (c.validateBody tm).2

/-- The caller's configuration after invoking `validate`: the method
takes its receiver by value, so the caller's record is the same value
it held before the call. -/
def Conf.confAfterValidate (tm : Bool) (c : Conf) : Conf :=
  let _ := c.validate tm
  c

end KeyCatApi

namespace KeyCatApi

theorem validateBody_fst (tm : Bool) (c : Conf) (h0 : ¬(c.Port < 1)) :
    (Conf.validateBody tm c).1 =
      if c.Url.length == 0 then
        { c with Url := "http://localhost:" ++ toString c.Port }
      else c := by
  unfold Conf.validateBody
  rw [if_neg h0]
  simp [apply_ite Prod.fst, ite_self]

/-- C9: `validate` takes its receiver by value, so the caller's
configuration is unchanged by the call — even though, inside the body,
an empty `Url` is defaulted to `http://localhost:<port>`, a change the
caller never observes. -/
theorem conf_validate_value_receiver (tm : Bool) (c : Conf) :
    Conf.confAfterValidate tm c = c
  ∧ (c.Url = "" → 1 ≤ c.Port →
      (Conf.validateBody tm c).1.Url = "http://localhost:" ++ toString c.Port
      ∧ (Conf.validateBody tm c).1.Url ≠ c.Url) := by
  constructor
  · rfl
  · intro hurl hport
    have h0 : ¬(c.Port < 1) := by omega
    have hcond : (c.Url.length == 0) = true := by simp [hurl]
    rw [validateBody_fst tm c h0, if_pos hcond]
    refine ⟨rfl, ?_⟩
    rw [hurl]
    intro hcontra
    have hlen := congrArg String.length hcontra
    rw [String.length_append] at hlen
    have hli : ("http://localhost:").length = 17 := rfl
    rw [hli] at hlen
    simp at hlen

/-- A concrete configuration with an empty `Url`. -/
def c9Ex : Conf :=
  { Url := ""
    Port := 8080
    DB := "db"
    DBMaxConns := 2
    DBType := "postgresql"
    OnlyInvited := false
    ProxyMode := false
    MailSMTP := none
    MailSparkpost := some { Key := "k", EU := false }
    MailFrom := "x@y"
    SessionRedis := none
    Csrf := { HashKey := "aaaaaaaaaaaaaaaaaaaaaaaaaaaaaaaa", BlockKey := "" } }

theorem conf_validate_value_receiver_witness :
    Conf.confAfterValidate false c9Ex = c9Ex
  ∧ (Conf.validateBody false c9Ex).1.Url =
      "http://localhost:" ++ toString (8080 : Int) := by
  constructor
  · exact (conf_validate_value_receiver false c9Ex).1
  · exact ((conf_validate_value_receiver false c9Ex).2 rfl (by decide)).1

/-- C10: `validate` accepts a configuration only when `DBType` is
exactly `"postgresql"` or exactly `"cockroackdb"`; any other value —
including the correctly spelled `"cockroachdb"` — is rejected with the
invalid-db-type error once the earlier port and db checks pass. -/
theorem conf_validate_dbtype_gate (tm : Bool) (c : Conf) :
    (Conf.validate tm c = none →
        c.DBType = "postgresql" ∨ c.DBType = "cockroackdb")
  ∧ (¬(c.Port < 1) → c.DB.length ≠ 0 →
      c.DBType ≠ "postgresql" → c.DBType ≠ "cockroackdb" →
      Conf.validate tm c = some ("Invalid db type (" ++ c.DBType ++ ")")) := by
  constructor
  · intro hnone
    by_cases hdt : (c.DBType != "postgresql" && c.DBType != "cockroackdb") = true
    · exfalso
      unfold Conf.validate Conf.validateBody at hnone
      by_cases hp : c.Port < 1
      · rw [if_pos hp] at hnone
        simp at hnone
      · rw [if_neg hp] at hnone
        simp only at hnone
        by_cases hu : (c.Url.length == 0) = true
        · simp only [if_pos hu] at hnone
          by_cases hdb : (c.DB.length == 0) = true
          · rw [if_pos hdb] at hnone
            simp at hnone
          · rw [if_neg hdb, if_pos hdt] at hnone
            simp at hnone
        · simp only [if_neg hu] at hnone
          by_cases hdb : (c.DB.length == 0) = true
          · rw [if_pos hdb] at hnone
            simp at hnone
          · rw [if_neg hdb, if_pos hdt] at hnone
            simp at hnone
    · have h2 : ¬(c.DBType ≠ "postgresql" ∧ c.DBType ≠ "cockroackdb") := by
        simpa using hdt
      rcases not_and_or.mp h2 with h3 | h3
      · exact Or.inl (not_not.mp h3)
      · exact Or.inr (not_not.mp h3)
  · intro h0 hdb ht1 ht2
    have hdb' : (c.DB.length == 0) = false := by simpa using hdb
    have hbne : (c.DBType != "postgresql" && c.DBType != "cockroackdb") = true := by
      simp [ht1, ht2]
    unfold Conf.validate Conf.validateBody
    rw [if_neg h0]
    by_cases hu : (c.Url.length == 0) = true
    · simp only [if_pos hu]
      rw [if_neg (by simp [hdb']), if_pos hbne]
    · simp only [if_neg hu]
      rw [if_neg (by simp [hdb']), if_pos hbne]

/-- A configuration whose `DBType` is the correctly spelled
`"cockroachdb"`, which the validator rejects. -/
def c10Ex : Conf := { c9Ex with DBType := "cockroachdb" }

theorem conf_validate_dbtype_gate_witness :
    Conf.validate false c10Ex = some "Invalid db type (cockroachdb)" := by
  have h := (conf_validate_dbtype_gate false c10Ex).2 (by decide) (by decide)
    (by decide) (by decide)
  simpa using h

end KeyCatApi

namespace KeyCat

theorem idSetEq_iff (a b : List Id) :
    idSetEq a b = true ↔ (∀ x, x ∈ a ↔ x ∈ b) := by
  unfold idSetEq
  simp only [Bool.and_eq_true, List.all_eq_true, List.elem_iff]
  constructor
  · rintro ⟨h1, h2⟩ x
    exact ⟨fun hx => h1 x hx, fun hx => h2 x hx⟩
  · intro h
    exact ⟨fun x hx => (h x).mp hx, fun x hx => (h x).mpr hx⟩

/-- C6: `CreateTeam` always succeeds (it is total here) and calling it
twice with the same name and key pair yields two teams with distinct
identifiers — the display name is not a uniqueness key. -/
theorem createTeam_twice_distinct_ids (st : ServerState) (actor : User)
    (name : String) (vkp : VaultKeyPair) :
    ((st.createTeam actor name vkp).2.createTeam actor name vkp).1.id ≠
      (st.createTeam actor name vkp).1.id := by
  simp [ServerState.createTeam, mkTeamWithVault]

/-- C7: `GetVaultsForUser` returns exactly the team's vaults whose
`VaultKeyPair` mapping contains the user's identifier as a key, and the
call leaves the team state unchanged. -/
theorem getVaultsForUser_key_coverage (t : Team) (u : User) :
    (∀ v, v ∈ (t.getVaultsForUser u).1 ↔
      v ∈ t.vaults ∧ v.vkp.hasKeyFor u.id = true)
  ∧ (t.getVaultsForUser u).2 = t := by
  constructor
  · intro v
    simp [Team.getVaultsForUser, List.mem_filter]
  · rfl

/-- C1: `CreateVault` fails with `InvalidKeys` when the recipient set
of `vkp` omits a current Admin/Owner, fails with `InvalidKeys` when it
includes an identifier that is not a current Admin/Owner, and on an
exact match succeeds, persisting the new vault with the given
`VaultKeyPair`. -/
theorem createVault_exact_admin_coverage (t : Team) (name : String)
    (vkp : VaultKeyPair) :
    ((∃ a, a ∈ t.adminIds ∧ a ∉ vkp.recipientIds) →
        t.createVault name vkp = .error .invalidKeys)
  ∧ ((∃ r, r ∈ vkp.recipientIds ∧ r ∉ t.adminIds) →
        t.createVault name vkp = .error .invalidKeys)
  ∧ ((∀ x, x ∈ vkp.recipientIds ↔ x ∈ t.adminIds) →
      t.createVault name vkp = .ok
        ({ id := t.nextVaultId, team := t.id, name := name, vkp := vkp },
         { t with
            vaults := t.vaults ++
              [{ id := t.nextVaultId, team := t.id, name := name, vkp := vkp }],
            nextVaultId := t.nextVaultId + 1 })) := by
  refine ⟨?_, ?_, ?_⟩
  · rintro ⟨a, ha, hna⟩
    have hne : idSetEq vkp.recipientIds t.adminIds = false := by
      rw [Bool.eq_false_iff]
      intro hEq
      exact hna (((idSetEq_iff _ _).mp hEq a).mpr ha)
    simp [Team.createVault, hne]
  · rintro ⟨r, hr, hnr⟩
    have hne : idSetEq vkp.recipientIds t.adminIds = false := by
      rw [Bool.eq_false_iff]
      intro hEq
      exact hnr (((idSetEq_iff _ _).mp hEq r).mp hr)
    simp [Team.createVault, hne]
  · intro h
    have hEq : idSetEq vkp.recipientIds t.adminIds = true :=
      (idSetEq_iff _ _).mpr h
    simp [Team.createVault, hEq]

theorem find?_setRole (ms : List (Id × Role)) (uid : Id) (r' : Role) :
    (ms.map (fun m => if m.1 == uid then (m.1, r') else m)).find?
        (fun m => m.1 == uid) =
      (ms.find? (fun m => m.1 == uid)).map (fun m => (m.1, r')) := by
  induction ms with
  | nil => rfl
  | cons hd tl ih =>
    by_cases h : hd.1 = uid
    · simp [List.find?, h]
    · rw [List.map_cons, if_neg (show ¬((hd.1 == uid) = true) by simp [h]),
        List.find?_cons_of_neg, List.find?_cons_of_neg, ih] <;> simp [h]

theorem isAdminId_setRole_false (ms : List (Id × Role)) (uid : Id) (r' : Role)
    (hr : r'.isAdminRole = false) (t : Team) :
    Team.isAdminId
        { t with members := ms.map (fun m => if m.1 == uid then (m.1, r') else m) }
        uid = false := by
  unfold Team.isAdminId Team.roleOf
  simp only [find?_setRole]
  cases ms.find? (fun m => m.1 == uid) <;> simp [hr]

/-- C3: `DemoteUser` fails with `Unauthorized` when the caller does not
hold Admin/Owner rights; after a successful demotion the target is no
longer an admin, and in particular the freshly demoted member cannot
demote the admin who demoted them. -/
theorem demoteUser_auth_and_effect (t : Team) (actor target : User) :
    (t.checkAdmin actor = false →
        t.demoteUser actor target = .error .unauthorized)
  ∧ (∀ t', t.demoteUser actor target = .ok t' →
      t'.checkAdmin target = false ∧
      t'.demoteUser target actor = .error .unauthorized) := by
  constructor
  · intro h
    simp [Team.demoteUser, h]
  · intro t' h
    have hdem : t'.checkAdmin target = false := by
      unfold Team.demoteUser at h
      split at h
      · simp at h
      split at h
      · simp at h
      split at h
      · simp at h
      injection h with h2
      subst h2
      exact isAdminId_setRole_false t.members target.id Role.member rfl t
    refine ⟨hdem, ?_⟩
    simp [Team.demoteUser, hdem]

theorem isAdminId_append_member (t : Team) (aid uid : Id) (r : Role)
    (h : t.isAdminId aid = true) :
    Team.isAdminId { t with members := t.members ++ [(uid, r)] } aid = true := by
  simp only [Team.isAdminId, Team.roleOf] at h ⊢
  rw [List.find?_append]
  cases hf : t.members.find? (fun m => m.1 == aid) with
  | none =>
    rw [hf] at h
    simp at h
  | some m =>
    rw [hf] at h
    exact h

theorem isMember_append_self (t : Team) (uid : Id) (r : Role) :
    Team.isMember { t with members := t.members ++ [(uid, r)] } uid = true := by
  simp only [Team.isMember, Team.roleOf]
  rw [List.find?_append]
  cases hf : t.members.find? (fun m => m.1 == uid) <;>
    simp [List.find?]

/-- C4: `AddOrInviteUserByEmail` never silently succeeds twice on the
same input: after an unresolved email was invited, the identical call
fails with `AlreadyInvited`; resolving to a user who is already a
member (any role) fails with `AlreadyInTeam`, in particular on the
identical call right after that user was added. -/
theorem addOrInvite_no_silent_repeat (users : List User) (t : Team)
    (actor : User) (email : String) :
    (∀ t', t.addOrInviteUserByEmail users actor email = .ok (false, t') →
        t'.addOrInviteUserByEmail users actor email = .error .alreadyInvited)
  ∧ (∀ u, t.checkAdmin actor = true → findUserByEmail users email = some u →
        t.isMember u.id = true →
        t.addOrInviteUserByEmail users actor email = .error .alreadyInTeam)
  ∧ (∀ t', t.addOrInviteUserByEmail users actor email = .ok (true, t') →
        t'.addOrInviteUserByEmail users actor email = .error .alreadyInTeam) := by
  refine ⟨?_, ?_, ?_⟩
  · intro t' h
    unfold Team.addOrInviteUserByEmail at h
    split at h
    · simp at h
    next hnadm =>
      have hadm : t.checkAdmin actor = true := by simpa using hnadm
      split at h
      next u hfind =>
        split at h
        · simp at h
        · simp at h
      next hfind =>
        split at h
        · simp at h
        next hninv =>
          injection h with h2
          injection h2 with h3 h4
          subst h4
          have hadm2 : Team.checkAdmin
              { t with invites := t.invites ++ [email] } actor = true := hadm
          simp [Team.addOrInviteUserByEmail, hadm2, hfind]
  · intro u hadm hfind hmem
    simp [Team.addOrInviteUserByEmail, hadm, hfind, hmem]
  · intro t' h
    unfold Team.addOrInviteUserByEmail at h
    split at h
    · simp at h
    next hnadm =>
      have hadm : t.checkAdmin actor = true := by simpa using hnadm
      split at h
      next u hfind =>
        split at h
        · simp at h
        next hnmem =>
          injection h with h2
          injection h2 with h3 h4
          subst h4
          have hadm2 : Team.checkAdmin
              { t with members := t.members ++ [(u.id, Role.member)] } actor = true :=
            isAdminId_append_member t actor.id u.id Role.member hadm
          have hmem2 : Team.isMember
              { t with members := t.members ++ [(u.id, Role.member)] } u.id = true :=
            isMember_append_self t u.id Role.member
          simp [Team.addOrInviteUserByEmail, hadm2, hfind, hmem2]
      next hfind =>
        split at h
        · simp at h
        · simp at h

/-- C5: an authorized first call adds a resolved non-member as a full
Member with `added = true`, and records an unresolved email as a
pending invitation keyed by the raw email with `added = false`. -/
theorem addOrInvite_first_call (users : List User) (t : Team) (actor : User)
    (email : String) (hadm : t.checkAdmin actor = true) :
    (∀ u, findUserByEmail users email = some u → t.isMember u.id = false →
        t.addOrInviteUserByEmail users actor email =
          .ok (true, { t with members := t.members ++ [(u.id, Role.member)] }))
  ∧ (findUserByEmail users email = none → t.invites.contains email = false →
        t.addOrInviteUserByEmail users actor email =
          .ok (false, { t with invites := t.invites ++ [email] })) := by
  constructor
  · intro u hfind hmem
    simp [Team.addOrInviteUserByEmail, hadm, hfind, hmem]
  · intro hfind hninv
    have hninv2 : email ∉ t.invites := by simpa using hninv
    simp [Team.addOrInviteUserByEmail, hadm, hfind, hninv2]

/-- The identity store for the invitation scenarios: one further
registered account. -/
def aoUsers : List User := [⟨1, "b@b.com"⟩]

/-- The acting owner in the invitation scenarios. -/
def aoActor : User := ⟨0, "a@a.com"⟩

/-- A team whose only member is owner 0. -/
def aoTeam : Team :=
  { id := 40
    name := "ao"
    owner := 0
    members := [(0, Role.owner)]
    invites := []
    vaults := []
    nextVaultId := 0 }

/-- `aoTeam` after member 1 was added by email. -/
def aoAdded : Team := { aoTeam with members := aoTeam.members ++ [(1, Role.member)] }

/-- `aoTeam` after the unresolved email was invited. -/
def aoInvited : Team := { aoTeam with invites := ["c@c.com"] }

theorem addOrInvite_no_silent_repeat_witness :
    aoInvited.addOrInviteUserByEmail aoUsers aoActor "c@c.com" =
      .error .alreadyInvited
  ∧ aoAdded.addOrInviteUserByEmail aoUsers aoActor "b@b.com" =
      .error .alreadyInTeam := by
  constructor
  · exact (addOrInvite_no_silent_repeat aoUsers aoTeam aoActor "c@c.com").1
      aoInvited rfl
  · exact (addOrInvite_no_silent_repeat aoUsers aoTeam aoActor "b@b.com").2.2
      aoAdded rfl

theorem addOrInvite_first_call_witness :
    aoTeam.addOrInviteUserByEmail aoUsers aoActor "b@b.com" =
      .ok (true, aoAdded)
  ∧ aoTeam.addOrInviteUserByEmail aoUsers aoActor "c@c.com" =
      .ok (false, { aoTeam with invites := aoTeam.invites ++ ["c@c.com"] }) := by
  constructor
  · exact (addOrInvite_first_call aoUsers aoTeam aoActor "b@b.com" rfl).1
      ⟨1, "b@b.com"⟩ rfl rfl
  · exact (addOrInvite_first_call aoUsers aoTeam aoActor "c@c.com" rfl).2 rfl rfl

theorem promoteUser_reduce (t : Team) (actor target : User) (vkp : VaultKeyPair)
    (hadm : t.checkAdmin actor = true)
    (r : Role) (hr : t.roleOf target.id = some r) (hri : r ≠ Role.invited) :
    t.promoteUser actor target vkp =
      if (t.vaults.filter (fun v => v.vkp.hasKeyFor actor.id)).all
          (fun v => vkp.hasKeyFor v.id) then
        .ok (t.promotedTeam actor.id target.id vkp)
      else .error .invalidKeys := by
  unfold Team.promoteUser
  rw [hadm, hr]
  cases r with
  | invited => exact absurd rfl hri
  | owner => rfl
  | admin => rfl
  | member => rfl

theorem promote_vaults_ids (vs : List Vault) (aid tid : Id) (vkp : VaultKeyPair)
    (hcov : ∀ v ∈ vs, v.vkp.hasKeyFor aid = true) :
    ((vs.map (fun v =>
        if v.vkp.hasKeyFor aid then
          { v with vkp := { v.vkp with
              keys := v.vkp.keys ++ [(tid, (vkp.keyFor v.id).getD [])] } }
        else v)).filter (fun v => v.vkp.hasKeyFor tid)).map Vault.id =
      (vs.filter (fun v => v.vkp.hasKeyFor aid)).map Vault.id := by
  induction vs with
  | nil => rfl
  | cons hd tl ih =>
    have hhd : hd.vkp.hasKeyFor aid = true := hcov hd (List.mem_cons_self hd tl)
    have htl : ∀ v ∈ tl, v.vkp.hasKeyFor aid = true :=
      fun v hv => hcov v (List.mem_cons_of_mem hd hv)
    rw [List.map_cons, if_pos hhd,
      List.filter_cons_of_pos, List.filter_cons_of_pos,
      List.map_cons, List.map_cons, ih htl]
    · exact hhd
    · simp [VaultKeyPair.hasKeyFor, List.any_append]

/-- C2: with an admin actor and an existing non-pending target,
`PromoteUser` fails with `InvalidKeys` whenever the supplied per-vault
key mapping omits a vault the actor currently has access to; after a
successful promotion the target is an admin and (under the spec's
coverage invariant, which makes every admin hold a key of every vault)
the target's vault list is exactly the vault list the actor had
immediately before the promotion. -/
theorem promoteUser_coverage_and_effect (t : Team) (actor target : User)
    (vkp : VaultKeyPair)
    (hadm : t.checkAdmin actor = true)
    (r : Role) (hr : t.roleOf target.id = some r) (hri : r ≠ Role.invited) :
    ((∃ v, v ∈ (t.getVaultsForUser actor).1 ∧ vkp.hasKeyFor v.id = false) →
        t.promoteUser actor target vkp = .error .invalidKeys)
  ∧ (∀ t', t.promoteUser actor target vkp = .ok t' →
      t'.checkAdmin target = true
      ∧ ((∀ v ∈ t.vaults, v.vkp.hasKeyFor actor.id = true) →
          (t'.getVaultsForUser target).1.map Vault.id =
            (t.getVaultsForUser actor).1.map Vault.id)) := by
  have hred := promoteUser_reduce t actor target vkp hadm r hr hri
  constructor
  · rintro ⟨v, hv, hk⟩
    have hall : (t.vaults.filter (fun v => v.vkp.hasKeyFor actor.id)).all
        (fun v => vkp.hasKeyFor v.id) = false := by
      rw [Bool.eq_false_iff]
      intro hAll
      have hv' : v ∈ t.vaults.filter (fun v => v.vkp.hasKeyFor actor.id) := hv
      have hkt := List.all_eq_true.mp hAll v hv'
      simp [hkt] at hk
    rw [hred, hall]
    simp
  · intro t' h
    rw [hred] at h
    by_cases hall : (t.vaults.filter (fun v => v.vkp.hasKeyFor actor.id)).all
        (fun v => vkp.hasKeyFor v.id) = true
    · rw [if_pos hall] at h
      injection h with h2
      subst h2
      constructor
      · have hsome : ∃ m, t.members.find? (fun m => m.1 == target.id) = some m := by
          unfold Team.roleOf at hr
          cases hf : t.members.find? (fun m => m.1 == target.id)
          · rw [hf] at hr
            simp at hr
          · exact ⟨_, rfl⟩
        obtain ⟨m, hm⟩ := hsome
        simp only [Team.checkAdmin, Team.isAdminId, Team.roleOf, Team.promotedTeam]
        rw [find?_setRole, hm]
        rfl
      · intro hcov
        simp only [Team.promotedTeam, Team.getVaultsForUser]
        exact promote_vaults_ids t.vaults actor.id target.id vkp hcov
    · rw [if_neg hall] at h
      simp at h

/-- A team for exercising `promoteUser`: owner 0 holding the key of the
single vault 5, plain member 1. -/
def pmTeam : Team :=
  { id := 30
    name := "p"
    owner := 0
    members := [(0, Role.owner), (1, Role.member)]
    invites := []
    vaults := [{ id := 5, team := 30, name := "v",
                 vkp := { publicKey := [], keys := [(0, [1])] } }]
    nextVaultId := 6 }

/-- A per-vault key mapping for the target that omits vault 5. -/
def pmBad : VaultKeyPair := { publicKey := [], keys := [] }

/-- A per-vault key mapping covering vault 5. -/
def pmGood : VaultKeyPair := { publicKey := [], keys := [(5, [2])] }

/-- `pmTeam` after promoting member 1 with `pmGood`. -/
def pmPromoted : Team :=
  { id := 30
    name := "p"
    owner := 0
    members := [(0, Role.owner), (1, Role.admin)]
    invites := []
    vaults := [{ id := 5, team := 30, name := "v",
                 vkp := { publicKey := [], keys := [(0, [1]), (1, [2])] } }]
    nextVaultId := 6 }

theorem promoteUser_coverage_and_effect_witness :
    pmTeam.promoteUser ⟨0, "a"⟩ ⟨1, "b"⟩ pmBad = .error .invalidKeys
  ∧ pmPromoted.checkAdmin ⟨1, "b"⟩ = true
  ∧ (pmPromoted.getVaultsForUser ⟨1, "b"⟩).1.map Vault.id =
      (pmTeam.getVaultsForUser ⟨0, "a"⟩).1.map Vault.id := by
  have h2 := (promoteUser_coverage_and_effect pmTeam ⟨0, "a"⟩ ⟨1, "b"⟩ pmGood
    rfl Role.member rfl (by decide)).2 pmPromoted rfl
  refine ⟨?_, h2.1, h2.2 (by decide)⟩
  exact (promoteUser_coverage_and_effect pmTeam ⟨0, "a"⟩ ⟨1, "b"⟩ pmBad
    rfl Role.member rfl (by decide)).1
    ⟨{ id := 5, team := 30, name := "v",
       vkp := { publicKey := [], keys := [(0, [1])] } }, by decide, rfl⟩

/-- A team with admin 0 and plain members 1 and 2 for exercising
`demoteUser`. -/
def dmTeam : Team :=
  { id := 20
    name := "d"
    owner := 0
    members := [(0, Role.owner), (1, Role.admin)]
    invites := []
    vaults := []
    nextVaultId := 0 }

theorem demoteUser_auth_and_effect_witness :
    dmTeam.demoteUser ⟨2, "c@c"⟩ ⟨0, "a@a"⟩ = .error .unauthorized
  ∧ ({ dmTeam with members := [(0, Role.owner), (1, Role.member)] } :
        Team).checkAdmin ⟨1, "b@b"⟩ = false := by
  constructor
  · exact (demoteUser_auth_and_effect dmTeam ⟨2, "c@c"⟩ ⟨0, "a@a"⟩).1 (by decide)
  · exact ((demoteUser_auth_and_effect dmTeam ⟨0, "a@a"⟩ ⟨1, "b@b"⟩).2
      { dmTeam with members := [(0, Role.owner), (1, Role.member)] }
      rfl).1

/-- Identifier freshness: every member identifier recorded in any team
lies below the server's fresh-id counter. -/
def ServerState.idsBelowNext (st : ServerState) : Prop :=
  ∀ t ∈ st.teams, ∀ m ∈ t.members, m.1 < st.nextId

/-- C8: a freshly registered user belongs to exactly one team — the
personal team registration creates — so `GetTeams` for that user
returns a sequence of length one. -/
theorem createUser_single_team (st : ServerState) (email : String)
    (vkp : VaultKeyPair) (hwf : st.idsBelowNext) :
    ((st.createUser email vkp).2.getTeams (st.createUser email vkp).1).length
      = 1 := by
  simp only [ServerState.createUser, ServerState.createTeam, ServerState.getTeams]
  rw [List.filter_append]
  have h1 : st.teams.filter (fun t => t.isMember st.nextId) = [] := by
    rw [List.filter_eq_nil_iff]
    intro t ht
    have hm : ∀ m ∈ t.members, ¬((fun m : Id × Role => m.1 == st.nextId) m = true) := by
      intro m hmem hbeq
      have hlt := hwf t ht m hmem
      have heq : m.1 = st.nextId := by simpa using hbeq
      exact absurd heq (Nat.ne_of_lt hlt)
    simp [Team.isMember, Team.roleOf, List.find?_eq_none.mpr hm]
  rw [h1]
  simp [mkTeamWithVault, Team.isMember, Team.roleOf, List.find?]

/-- The empty server state. -/
def st0 : ServerState := { users := [], teams := [], nextId := 0 }

theorem createUser_single_team_witness :
    ((st0.createUser "e@e.com" { publicKey := [], keys := [] }).2.getTeams
      (st0.createUser "e@e.com" { publicKey := [], keys := [] }).1).length = 1 :=
  createUser_single_team st0 "e@e.com" { publicKey := [], keys := [] }
    (by intro t ht m hm; simp [st0] at ht)

/-- A concrete team for exercising `createVault`: admins 0 and 1,
plain member 2. -/
def cvTeam : Team :=
  { id := 10
    name := "t"
    owner := 0
    members := [(0, Role.owner), (1, Role.admin), (2, Role.member)]
    invites := []
    vaults := []
    nextVaultId := 0 }

/-- A key pair covering exactly the admins of `cvTeam`. -/
def cvGood : VaultKeyPair := { publicKey := [], keys := [(0, [7]), (1, [8])] }

/-- A key pair omitting admin 1 of `cvTeam`. -/
def cvMissing : VaultKeyPair := { publicKey := [], keys := [(0, [7])] }

/-- A key pair including the non-admin 2 of `cvTeam`. -/
def cvExtra : VaultKeyPair :=
  { publicKey := [], keys := [(0, [7]), (1, [8]), (2, [9])] }

theorem createVault_exact_admin_coverage_witness :
    cvTeam.createVault "v" cvMissing = .error .invalidKeys
  ∧ cvTeam.createVault "v" cvExtra = .error .invalidKeys
  ∧ cvTeam.createVault "v" cvGood = .ok
      ({ id := 0, team := 10, name := "v", vkp := cvGood },
       { cvTeam with
          vaults := [{ id := 0, team := 10, name := "v", vkp := cvGood }],
          nextVaultId := 1 }) := by
  refine ⟨?_, ?_, ?_⟩
  · exact (createVault_exact_admin_coverage cvTeam "v" cvMissing).1
      ⟨1, by decide, by decide⟩
  · exact (createVault_exact_admin_coverage cvTeam "v" cvExtra).2.1
      ⟨2, by decide, by decide⟩
  · exact (createVault_exact_admin_coverage cvTeam "v" cvGood).2.2
      ((idSetEq_iff _ _).mp (by decide))

end KeyCat
